import Mathlib

/-!
Verification of the PayCrypt airdrop Merkle subsystem and claim contract.

The development shallowly embeds:
* the offline Merkle builder `scripts/generate-merkle.ts` (class
  `AirdropMerkleTree`, built on `merkletreejs` with `sortPairs: true` and
  `ethers.keccak256` as hash), and
* the on-chain distributor `PayCryptAirdrop` (Solidity 0.8, OpenZeppelin
  `MerkleProof`), with checked uint256 arithmetic and revert-as-error
  semantics.

Bytes are `Nat`s below 256, byte strings are `List Nat`, 256-bit words and
hashes are `Nat`s below 2^256.  The Keccak-f[1600] state is packed into a
single 1600-bit `Nat`, lane `x + 5*y` occupying bits `[64*(x+5*y), 64*(x+5*y)+64)`,
little-endian within each lane, which agrees byte-for-byte with the standard
byte-oriented absorb/squeeze order.
-/

set_option maxRecDepth 40000
set_option exponentiation.threshold 2048

namespace PayCrypt

/-! ## Keccak-256 (the hash used by both the builder and the contract) -/

/-- 64-bit mask. -/
def mask64 : Nat := 2 ^ 64 - 1

/-- Rotate a 64-bit word left by `n` (`0 ≤ n < 64`). -/
def rotl64 (x n : Nat) : Nat :=
  ((x <<< n) ||| (x >>> (64 - n))) &&& mask64

/-- Lane `i` of a packed state. -/
def getLane (S i : Nat) : Nat := (S >>> (64 * i)) &&& mask64

/-- The theta step of Keccak-f[1600] on a packed state. -/
def keccakTheta (S : Nat) : Nat :=
  let c0 := getLane S 0 ^^^ getLane S 5 ^^^ getLane S 10 ^^^ getLane S 15 ^^^ getLane S 20
  let c1 := getLane S 1 ^^^ getLane S 6 ^^^ getLane S 11 ^^^ getLane S 16 ^^^ getLane S 21
  let c2 := getLane S 2 ^^^ getLane S 7 ^^^ getLane S 12 ^^^ getLane S 17 ^^^ getLane S 22
  let c3 := getLane S 3 ^^^ getLane S 8 ^^^ getLane S 13 ^^^ getLane S 18 ^^^ getLane S 23
  let c4 := getLane S 4 ^^^ getLane S 9 ^^^ getLane S 14 ^^^ getLane S 19 ^^^ getLane S 24
  let d := (c4 ^^^ rotl64 c1 1) ||| ((c0 ^^^ rotl64 c2 1) <<< 64) |||
    ((c1 ^^^ rotl64 c3 1) <<< 128) ||| ((c2 ^^^ rotl64 c4 1) <<< 192) |||
    ((c3 ^^^ rotl64 c0 1) <<< 256)
  S ^^^ d * (1 + (1 <<< 320) + (1 <<< 640) + (1 <<< 960) + (1 <<< 1280))

/-- The combined rho and pi steps: output lane `y + 5*((2x+3y) mod 5)` is the
input lane `x + 5*y` rotated by the standard rho offset. -/
def keccakRhoPi (S : Nat) : Nat :=
  getLane S 0 |||
  (rotl64 (getLane S 6) 44 <<< 64) |||
  (rotl64 (getLane S 12) 43 <<< 128) |||
  (rotl64 (getLane S 18) 21 <<< 192) |||
  (rotl64 (getLane S 24) 14 <<< 256) |||
  (rotl64 (getLane S 3) 28 <<< 320) |||
  (rotl64 (getLane S 9) 20 <<< 384) |||
  (rotl64 (getLane S 10) 3 <<< 448) |||
  (rotl64 (getLane S 16) 45 <<< 512) |||
  (rotl64 (getLane S 22) 61 <<< 576) |||
  (rotl64 (getLane S 1) 1 <<< 640) |||
  (rotl64 (getLane S 7) 6 <<< 704) |||
  (rotl64 (getLane S 13) 25 <<< 768) |||
  (rotl64 (getLane S 19) 8 <<< 832) |||
  (rotl64 (getLane S 20) 18 <<< 896) |||
  (rotl64 (getLane S 4) 27 <<< 960) |||
  (rotl64 (getLane S 5) 36 <<< 1024) |||
  (rotl64 (getLane S 11) 10 <<< 1088) |||
  (rotl64 (getLane S 17) 15 <<< 1152) |||
  (rotl64 (getLane S 23) 56 <<< 1216) |||
  (rotl64 (getLane S 2) 62 <<< 1280) |||
  (rotl64 (getLane S 8) 55 <<< 1344) |||
  (rotl64 (getLane S 14) 39 <<< 1408) |||
  (rotl64 (getLane S 15) 41 <<< 1472) |||
  (rotl64 (getLane S 21) 2 <<< 1536)

/-- One 5-lane row (320 bits) of a packed state. -/
def row5 (S y : Nat) : Nat := (S >>> (320 * y)) &&& (2 ^ 320 - 1)

/-- The chi step on one row. -/
def chiRow (r : Nat) : Nat :=
  let b0 := r &&& mask64
  let b1 := (r >>> 64) &&& mask64
  let b2 := (r >>> 128) &&& mask64
  let b3 := (r >>> 192) &&& mask64
  let b4 := (r >>> 256) &&& mask64
  (b0 ^^^ ((mask64 ^^^ b1) &&& b2)) |||
  ((b1 ^^^ ((mask64 ^^^ b2) &&& b3)) <<< 64) |||
  ((b2 ^^^ ((mask64 ^^^ b3) &&& b4)) <<< 128) |||
  ((b3 ^^^ ((mask64 ^^^ b4) &&& b0)) <<< 192) |||
  ((b4 ^^^ ((mask64 ^^^ b0) &&& b1)) <<< 256)

/-- The chi step of Keccak-f[1600] on a packed state. -/
def keccakChi (S : Nat) : Nat :=
  chiRow (row5 S 0) ||| (chiRow (row5 S 1) <<< 320) ||| (chiRow (row5 S 2) <<< 640) |||
    (chiRow (row5 S 3) <<< 960) ||| (chiRow (row5 S 4) <<< 1280)

/-- One clock of the degree-8 LFSR (polynomial `x^8+x^6+x^5+x^4+1`) that
generates the Keccak round-constant bits: the output bit paired with the
next state. -/
def rcClock (st : Nat) : Nat × Nat :=
  (st &&& 1,
    if st &&& 0x80 ≠ 0 then ((st <<< 1) ^^^ 0x171) &&& 0xFF
    else (st <<< 1) &&& 0xFF)

/-- One round constant (bit `2^j - 1` set from the `j`-th LFSR output,
`j < 7`) together with the LFSR state after its seven clocks. -/
def rcRound (st : Nat) : Nat × Nat :=
  (List.range 7).foldl
    (fun acc j =>
      let b := rcClock acc.2
      (acc.1 + b.1 * (1 <<< (2 ^ j - 1)), b.2))
    (0, st)

/-- The 24 Keccak round constants (iota step, lane 0), generated by the
standard LFSR from initial state 1; pinned down end-to-end by the
test-vector theorems below. -/
def keccakRC : List Nat :=
  ((List.range 24).foldl
    (fun acc _ =>
      let r := rcRound acc.2
      (acc.1 ++ [r.1], r.2))
    (([] : List Nat), 1)).1

/-- One Keccak-f[1600] round. -/
def keccakRound (S rc : Nat) : Nat :=
  keccakChi (keccakRhoPi (keccakTheta S)) ^^^ rc

/-- The full Keccak-f[1600] permutation: 24 rounds. -/
def keccakF (S : Nat) : Nat :=
  keccakRC.foldl keccakRound S

/-- Multi-rate padding for the original Keccak (domain byte 0x01), rate 136. -/
def keccakPad (msg : List Nat) : List Nat :=
  let padLen := 136 - msg.length % 136
  if padLen = 1 then msg ++ [0x81]
  else msg ++ 0x01 :: List.replicate (padLen - 2) 0 ++ [0x80]

/-- Interpret a byte string as a little-endian natural number; on a 136-byte
block this is exactly the packed value of the 17 absorbed lanes. -/
def bytesToNatLE (bs : List Nat) : Nat :=
  bs.foldr (fun b acc => b + 256 * acc) 0

/-- Take `n` 136-byte blocks from the front of a byte string. -/
def blocksAux : Nat → List Nat → List (List Nat)
  | 0, _ => []
  | n + 1, l => l.take 136 :: blocksAux n (l.drop 136)

/-- Split a byte string whose length is a multiple of 136 into its
136-byte blocks. -/
def blocks136 (l : List Nat) : List (List Nat) :=
  blocksAux (l.length / 136) l

/-- XOR a 136-byte block into the first 17 lanes, then permute. -/
def absorbBlock (S : Nat) (block : List Nat) : Nat :=
  keccakF (S ^^^ bytesToNatLE block)

/-- Interpret a byte string as a big-endian natural number (the numeric value
`Buffer.compare` and `bytes32` comparison order by). -/
def bytesToNatBE (bs : List Nat) : Nat :=
  bs.foldl (fun acc b => acc * 256 + b) 0

/-- The `n` low bytes of a natural number, most significant first. -/
def natToBytesBE : Nat → Nat → List Nat
  | 0, _ => []
  | k + 1, x => natToBytesBE k (x >>> 8) ++ [x &&& 255]

/-- Reverse the byte order of a 32-byte quantity. -/
def revBytes32 (x : Nat) : Nat :=
  bytesToNatBE ((natToBytesBE 32 x).reverse)

/-- Keccak-256 of a byte string, as the 256-bit big-endian value of the
32-byte digest (the number denoted by the usual `0x…` hex string).
This is `ethers.keccak256` / Solidity `keccak256`.  The digest consists of
the first 32 bytes squeezed from the state, i.e. the low 256 bits of the
packed state read in little-endian byte order. -/
def keccak256 (msg : List Nat) : Nat :=
  let st := (blocks136 (keccakPad msg)).foldl absorbBlock 0
  revBytes32 (st &&& (2 ^ 256 - 1))

/-- Sanity check against the published digest of the empty string. -/
theorem keccak256_nil :
    keccak256 [] =
      0xc5d2460186f7233c927e7db2dcc703c0e500b653ca82273b7bfad8045d85a470 := by
  decide

/-- Sanity check against the published digest of the ASCII string `abc`. -/
theorem keccak256_abc :
    keccak256 [0x61, 0x62, 0x63] =
      0x4e03657aea45a94fc7d47ba826c8d667c0d1e6e33a64a036ec44f58fa12d6c45 := by
  decide

/-! ## Packed encodings, `parseEther`, and the two leaf computations -/

/-- `ethers.solidityPacked(['address','uint256'], [address, amountWei])` as
used by `AirdropMerkleTree.createLeaf`: the address as its 20 raw bytes
followed by the amount as a 32-byte big-endian word. -/
def solidityPackedAddressUint256 (addr amount : Nat) : List Nat :=
  natToBytesBE 20 addr ++ natToBytesBE 32 amount

/-- Solidity `abi.encodePacked(msg.sender, amount)` as evaluated inside
`PayCryptAirdrop.claimTokens`: 20 big-endian bytes of the address followed by
32 big-endian bytes of the `uint256`.  Written independently of the
builder-side encoder, indexing each byte from the most significant end. -/
def abiEncodePackedAddressUint256 (addr amount : Nat) : List Nat :=
  ((List.range 20).map fun i => (addr >>> (8 * (19 - i))) &&& 255) ++
    (List.range 32).map fun i => (amount >>> (8 * (31 - i))) &&& 255

/-- The value of a list of decimal digits, most significant first. -/
def digitsToNat (ds : List Nat) : Nat := ds.foldl (fun acc d => acc * 10 + d) 0

/-- `ethers.parseEther`, i.e. `parseUnits(value, 18)`: a decimal amount
string with whole part `whole` and fractional part `frac` (at most 18
digits) denotes `whole·10^18 + frac·10^(18-|frac|)` wei. -/
def parseEther (whole frac : List Nat) : Nat :=
  digitsToNat whole * 10 ^ 18 + digitsToNat frac * 10 ^ (18 - frac.length)

/-- `AirdropMerkleTree.createLeaf` (generate-merkle.ts:62-73): keccak256 of
the packed encoding of the address and `parseEther(amount)`. -/
def createLeaf (address : Nat) (whole frac : List Nat) : Nat :=
  keccak256 (solidityPackedAddressUint256 address (parseEther whole frac))

/-- The leaf recomputed on-chain by `claimTokens`:
`keccak256(abi.encodePacked(msg.sender, amount))`. -/
def claimLeaf (sender amount : Nat) : Nat :=
  keccak256 (abiEncodePackedAddressUint256 sender amount)

theorem natToBytesBE_eq_map (n x : Nat) :
    natToBytesBE n x = (List.range n).map fun i => (x >>> (8 * (n - 1 - i))) &&& 255 := by
  induction n generalizing x with
  | zero => simp [natToBytesBE]
  | succ n ih =>
    rw [natToBytesBE, ih, List.range_succ, List.map_append]
    simp only [List.map_cons, List.map_nil]
    congr 1
    · apply List.map_congr_left
      intro i hi
      rw [List.mem_range] at hi
      rw [← Nat.shiftRight_add]
      congr 2
      omega
    · simp

/-- **C1.** For every address and every ether-denominated amount string
(whole-part and fractional-part digit lists), the leaf hash computed by the
offline builder (`AirdropMerkleTree.createLeaf`: keccak256 of the packed
encoding of the address and `parseEther(amount)`) is byte-identical to the
leaf the on-chain verifier recomputes in `claimTokens`
(`keccak256(abi.encodePacked(msg.sender, amount))`) when `msg.sender` is
that address and the on-chain amount equals `parseEther` of the offline
amount string. -/
theorem createLeaf_eq_claimLeaf (address : Nat) (whole frac : List Nat) :
    createLeaf address whole frac = claimLeaf address (parseEther whole frac) := by
  have packed_eq : ∀ a m : Nat,
      solidityPackedAddressUint256 a m = abiEncodePackedAddressUint256 a m := by
    intro a m
    unfold solidityPackedAddressUint256 abiEncodePackedAddressUint256
    rw [natToBytesBE_eq_map, natToBytesBE_eq_map]
  unfold createLeaf claimLeaf
  rw [packed_eq]

/-! ## The merkletreejs tree with `sortPairs: true`

`generate-merkle.ts` builds `new MerkleTree(leaves, ethers.keccak256,
{ sortPairs: true })`.  All other options keep their defaults
(`sortLeaves: false`, `duplicateOdd: false`, `isBitcoinTree: false`), so:
each level pairs adjacent nodes, sorts the two nodes of a pair before
hashing, and carries an odd trailing node up unchanged. -/

/-- keccak256 of the concatenation of two 32-byte words. -/
def hashConcat (a b : Nat) : Nat :=
  keccak256 (natToBytesBE 32 a ++ natToBytesBE 32 b)

/-- Pair hash used while *building* the tree: `merkletreejs` with
`sortPairs` sorts the pair with `Buffer.compare` (a stable sort, so ties
keep the left node first) and hashes the concatenation. -/
def hashPairLe (a b : Nat) : Nat :=
  if a ≤ b then hashConcat a b else hashConcat b a

/-- Pair hash used while *verifying*: both `merkletreejs.verify` with
`sortPairs` and OpenZeppelin's `MerkleProof._hashPair` put the strictly
smaller node first. -/
def hashPairLt (a b : Nat) : Nat :=
  if a < b then hashConcat a b else hashConcat b a

/-- One level of `createHashes`: hash adjacent pairs with `f`, carry an odd
trailing node up unchanged. -/
def hashLevel (f : Nat → Nat → Nat) : List Nat → List Nat
  | [] => []
  | [a] => [a]
  | a :: b :: rest => f a b :: hashLevel f rest

/-- Fuelled loop of `createHashes`; the fuel only bounds the number of
levels (each level at least halves, so `nodes.length` is always enough). -/
def buildLayersAux (f : Nat → Nat → Nat) : Nat → List Nat → List (List Nat)
  | 0, nodes => [nodes]
  | fuel + 1, nodes =>
    if nodes.length ≤ 1 then [nodes]
    else nodes :: buildLayersAux f fuel (hashLevel f nodes)

/-- `merkletreejs.createHashes`: the list of layers, leaves first, root
layer last. -/
def buildLayers (f : Nat → Nat → Nat) (nodes : List Nat) : List (List Nat) :=
  buildLayersAux f nodes.length nodes

/-- `merkletreejs.getRoot`: the first node of the last layer. -/
def rootOfLayers : List (List Nat) → Nat
  | [] => 0
  | [layer] => layer.getD 0 0
  | _ :: rest => rootOfLayers (rest)

/-- Root of the tree built over `leaves` with pair hash `f`. -/
def getRootF (f : Nat → Nat → Nat) (leaves : List Nat) : Nat :=
  rootOfLayers (buildLayers f leaves)

/-- `merkletreejs.getProof` scans the whole leaf layer and keeps the *last*
index whose leaf equals the target. -/
def lastIndexOf (x : Nat) : List Nat → Option Nat
  | [] => none
  | y :: ys =>
    match lastIndexOf x ys with
    | some j => some (j + 1)
    | none => if y = x then some 0 else none

/-- The sibling-collection walk of `merkletreejs.getProof`: at each layer
push the pair partner (index `i-1` for a right node, `i+1` for a left node)
when it exists, then move to index `i / 2` in the next layer. -/
def proofAtIndex : List (List Nat) → Nat → List Nat
  | [], _ => []
  | layer :: rest, i =>
    (if (if i % 2 = 1 then i - 1 else i + 1) < layer.length
      then [layer.getD (if i % 2 = 1 then i - 1 else i + 1) 0] else []) ++
      proofAtIndex rest (i / 2)

/-- `merkletreejs.getProof(leaf)`: empty when the leaf does not occur. -/
def getProofF (f : Nat → Nat → Nat) (leaves : List Nat) (leaf : Nat) : List Nat :=
  match lastIndexOf leaf leaves with
  | none => []
  | some i => proofAtIndex (buildLayers f leaves) i

/-- Fold a proof from the leaf towards the root with pair hash `f`
(`merkletreejs.verify` and OpenZeppelin `MerkleProof.processProof`). -/
def processProof (f : Nat → Nat → Nat) (leaf : Nat) (proof : List Nat) : Nat :=
  proof.foldl f leaf

/-- Proof verification: recompute the root and compare. -/
def verifyF (f : Nat → Nat → Nat) (proof : List Nat) (leaf root : Nat) : Bool :=
  processProof f leaf proof == root

/-- OpenZeppelin `MerkleProof.verify(proof, root, leaf)` as inlined in the
airdrop contract. -/
def merkleVerify (proof : List Nat) (root leaf : Nat) : Bool :=
  verifyF hashPairLt proof leaf root

/-! ### The `AirdropMerkleTree` class -/

/-- One entry of the eligible-users list: an address and the decimal digits
of its ether-denominated amount string (whole and fractional part). -/
structure EligibleUser where
  address : Nat
  amountWhole : List Nat
  amountFrac : List Nat
deriving DecidableEq, Repr

/-- The leaf of one eligible user (`createLeaf(user.address, user.amount)`). -/
def userLeaf (u : EligibleUser) : Nat :=
  createLeaf u.address u.amountWhole u.amountFrac

/-- The leaf layer (`generateMerkleTree`, leaves in input order). -/
def treeLeaves (users : List EligibleUser) : List Nat :=
  users.map userLeaf

/-- `AirdropMerkleTree.getMerkleRoot`. -/
def getMerkleRoot (users : List EligibleUser) : Nat :=
  getRootF hashPairLe (treeLeaves users)

/-- `AirdropMerkleTree.getProof(address, amount)`. -/
def getProof (users : List EligibleUser) (address : Nat) (whole frac : List Nat) :
    List Nat :=
  getProofF hashPairLe (treeLeaves users) (createLeaf address whole frac)

/-- `AirdropMerkleTree.verifyProof(address, amount, proof)`:
`tree.verify(proof, leaf, root)`. -/
def verifyProof (users : List EligibleUser) (address : Nat) (whole frac : List Nat)
    (proof : List Nat) : Bool :=
  verifyF hashPairLt proof (createLeaf address whole frac) (getMerkleRoot users)

/-! ### Pair-hash algebra and layer lemmas -/

theorem hashPairLe_eq_lt (a b : Nat) : hashPairLe a b = hashPairLt a b := by
  unfold hashPairLe hashPairLt
  rcases Nat.lt_trichotomy a b with h | h | h
  · rw [if_pos (Nat.le_of_lt h), if_pos h]
  · subst h
    simp
  · rw [if_neg (by omega), if_neg (by omega)]

theorem hashPairLt_comm (a b : Nat) : hashPairLt a b = hashPairLt b a := by
  unfold hashPairLt
  rcases Nat.lt_trichotomy a b with h | h | h
  · rw [if_pos h, if_neg (by omega)]
  · subst h
    simp
  · rw [if_neg (by omega), if_pos h]

theorem hashPairLe_comm (a b : Nat) : hashPairLe a b = hashPairLe b a := by
  rw [hashPairLe_eq_lt, hashPairLe_eq_lt, hashPairLt_comm]

theorem processProof_lt_eq_le : ∀ (p : List Nat) (x : Nat),
    processProof hashPairLt x p = processProof hashPairLe x p
  | [], _ => rfl
  | s :: rest, x => by
    simp only [processProof, List.foldl_cons]
    rw [← hashPairLe_eq_lt]
    exact processProof_lt_eq_le rest (hashPairLe x s)

theorem hashLevel_length (f : Nat → Nat → Nat) : ∀ l : List Nat,
    (hashLevel f l).length = (l.length + 1) / 2
  | [] => by simp [hashLevel]
  | [_] => by simp [hashLevel]
  | _ :: _ :: rest => by
    simp only [hashLevel, List.length_cons]
    rw [hashLevel_length f rest]
    omega

theorem hashLevel_getD_pair (f : Nat → Nat → Nat) :
    ∀ (l : List Nat) (j : Nat), 2 * j + 1 < l.length →
      (hashLevel f l).getD j 0 = f (l.getD (2 * j) 0) (l.getD (2 * j + 1) 0)
  | [], _, h => by simp at h
  | [_], _, h => by
    simp only [List.length_singleton] at h
    omega
  | _ :: _ :: _, 0, _ => by simp [hashLevel]
  | a :: b :: rest, j + 1, h => by
    have h' : 2 * j + 1 < rest.length := by
      simp only [List.length_cons] at h
      omega
    simp only [hashLevel, show (2 * (j + 1) : Nat) = 2 * j + 1 + 1 from by ring,
      List.getD_cons_succ]
    exact hashLevel_getD_pair f rest j h'

theorem hashLevel_getD_last (f : Nat → Nat → Nat) :
    ∀ (l : List Nat) (j : Nat), l.length = 2 * j + 1 →
      (hashLevel f l).getD j 0 = l.getD (2 * j) 0
  | [], _, h => by simp at h
  | [_], 0, _ => by simp [hashLevel]
  | [_], j + 1, h => by
    simp only [List.length_singleton] at h
    omega
  | _ :: _ :: rest, 0, h => by
    simp only [List.length_cons] at h
    omega
  | a :: b :: rest, j + 1, h => by
    have h' : rest.length = 2 * j + 1 := by
      simp only [List.length_cons] at h
      omega
    simp only [hashLevel, show (2 * (j + 1) : Nat) = 2 * j + 1 + 1 from by ring,
      List.getD_cons_succ]
    exact hashLevel_getD_last f rest j h'

theorem buildLayersAux_ne_nil (f : Nat → Nat → Nat) :
    ∀ (fuel : Nat) (nodes : List Nat), buildLayersAux f fuel nodes ≠ []
  | 0, _ => by simp [buildLayersAux]
  | fuel + 1, nodes => by
    unfold buildLayersAux
    split <;> simp

theorem rootOfLayers_cons (l : List Nat) (ls : List (List Nat)) (h : ls ≠ []) :
    rootOfLayers (l :: ls) = rootOfLayers ls := by
  match ls with
  | [] => exact absurd rfl h
  | _ :: _ => rfl

theorem processProof_append (f : Nat → Nat → Nat) (x : Nat) (s t : List Nat) :
    processProof f x (s ++ t) = processProof f (processProof f x s) t := by
  simp [processProof, List.foldl_append]

/-- Walking up the layers from any in-range leaf index and folding the
collected siblings recomputes the root (for any commutative pair hash). -/
theorem processProof_proofAtIndex (f : Nat → Nat → Nat)
    (hc : ∀ a b : Nat, f a b = f b a) :
    ∀ (fuel : Nat) (l : List Nat) (i : Nat), l.length ≤ fuel + 1 → i < l.length →
      processProof f (l.getD i 0) (proofAtIndex (buildLayersAux f fuel l) i) =
        rootOfLayers (buildLayersAux f fuel l) := by
  intro fuel
  induction fuel with
  | zero =>
    intro l i hfuel hi
    match l with
    | [] => simp at hi
    | [a] =>
      obtain rfl : i = 0 := by
        simp only [List.length_singleton] at hi
        omega
      simp [buildLayersAux, proofAtIndex, processProof, rootOfLayers]
    | a :: b :: rest =>
      simp only [List.length_cons] at hfuel
      omega
  | succ fuel ih =>
    intro l i hfuel hi
    by_cases hlen : l.length ≤ 1
    · rw [buildLayersAux, if_pos hlen]
      match l with
      | [] => simp at hi
      | [a] =>
        obtain rfl : i = 0 := by
          simp only [List.length_singleton] at hi
          omega
        simp [proofAtIndex, processProof, rootOfLayers]
      | a :: b :: rest =>
        simp only [List.length_cons] at hlen
        omega
    · rw [buildLayersAux, if_neg hlen, proofAtIndex, processProof_append]
      have hstep : processProof f (l.getD i 0)
          (if (if i % 2 = 1 then i - 1 else i + 1) < l.length
            then [l.getD (if i % 2 = 1 then i - 1 else i + 1) 0] else []) =
          (hashLevel f l).getD (i / 2) 0 := by
        by_cases hodd : i % 2 = 1
        · obtain ⟨j, rfl⟩ : ∃ j, i = 2 * j + 1 := ⟨i / 2, by omega⟩
          have hdiv : (2 * j + 1) / 2 = j := by omega
          have hsub : 2 * j + 1 - 1 = 2 * j := by omega
          rw [if_pos hodd, hsub, if_pos (by omega : 2 * j < l.length), hdiv]
          show f (l.getD (2 * j + 1) 0) (l.getD (2 * j) 0) = _
          rw [hashLevel_getD_pair f l j (by omega)]
          rw [hc]
        · by_cases h2 : i + 1 < l.length
          · obtain ⟨j, rfl⟩ : ∃ j, i = 2 * j := ⟨i / 2, by omega⟩
            have hdiv : 2 * j / 2 = j := by omega
            rw [if_neg hodd, if_pos h2, hdiv]
            show f (l.getD (2 * j) 0) (l.getD (2 * j + 1) 0) = _
            rw [hashLevel_getD_pair f l j (by omega)]
          · obtain ⟨j, rfl⟩ : ∃ j, i = 2 * j := ⟨i / 2, by omega⟩
            have hdiv : 2 * j / 2 = j := by omega
            rw [if_neg hodd, if_neg h2, hdiv]
            show l.getD (2 * j) 0 = _
            rw [hashLevel_getD_last f l j (by omega)]
      rw [hstep, rootOfLayers_cons _ _ (buildLayersAux_ne_nil f fuel _)]
      apply ih
      · rw [hashLevel_length]
        omega
      · rw [hashLevel_length]
        omega

theorem lastIndexOf_spec (x : Nat) :
    ∀ (l : List Nat) (i : Nat), lastIndexOf x l = some i →
      i < l.length ∧ l.getD i 0 = x
  | [], i, h => by simp [lastIndexOf] at h
  | y :: ys, i, h => by
    unfold lastIndexOf at h
    cases hrec : lastIndexOf x ys with
    | some j =>
      rw [hrec] at h
      injection h with h
      subst h
      obtain ⟨h1, h2⟩ := lastIndexOf_spec x ys j hrec
      refine ⟨by simp only [List.length_cons]; omega, ?_⟩
      simpa using h2
    | none =>
      rw [hrec] at h
      by_cases hyx : y = x
      · rw [if_pos hyx] at h
        injection h with h
        subst h
        exact ⟨by simp, by simpa using hyx⟩
      · rw [if_neg hyx] at h
        simp at h

theorem lastIndexOf_isSome (x : Nat) :
    ∀ (l : List Nat), x ∈ l → (lastIndexOf x l).isSome
  | [], hmem => by simp at hmem
  | y :: ys, hmem => by
    unfold lastIndexOf
    by_cases hys : x ∈ ys
    · have hrec := lastIndexOf_isSome x ys hys
      cases hidx : lastIndexOf x ys with
      | some j => simp
      | none =>
        rw [hidx] at hrec
        simp at hrec
    · have hxy : y = x := by
        rcases List.mem_cons.mp hmem with h | h
        · exact h.symm
        · exact absurd h hys
      cases hidx : lastIndexOf x ys with
      | some j => simp
      | none => simp [if_pos hxy]

/-- **C2.** For every non-empty list of eligible users and every
(address, amount) pair in that list, the proof returned by
`AirdropMerkleTree.getProof(address, amount)` verifies against the tree's
root: `verifyProof(address, amount, getProof(address, amount))` returns
`true`. -/
theorem verifyProof_getProof (users : List EligibleUser) (u : EligibleUser)
    (hu : u ∈ users) :
    verifyProof users u.address u.amountWhole u.amountFrac
      (getProof users u.address u.amountWhole u.amountFrac) = true := by
  have hleaf : createLeaf u.address u.amountWhole u.amountFrac ∈ treeLeaves users :=
    List.mem_map_of_mem userLeaf hu
  have hsome := lastIndexOf_isSome _ (treeLeaves users) hleaf
  unfold verifyProof getProof getProofF verifyF
  cases hidx : lastIndexOf (createLeaf u.address u.amountWhole u.amountFrac)
      (treeLeaves users) with
  | none =>
    rw [hidx] at hsome
    simp at hsome
  | some i =>
    obtain ⟨hlt, hget⟩ := lastIndexOf_spec _ (treeLeaves users) i hidx
    rw [processProof_lt_eq_le, ← hget, buildLayers,
      processProof_proofAtIndex hashPairLe hashPairLe_comm
        (treeLeaves users).length (treeLeaves users) i (by omega) hlt]
    unfold getMerkleRoot getRootF buildLayers
    simp

/-- Concrete single-entry eligible list used as a witness input. -/
def wUser : EligibleUser := ⟨0x742d35Cc6661C0532108D3CE8c8FCfb4F88CA7C5, [1, 0, 0, 0], []⟩

theorem verifyProof_getProof_witness :
    wUser ∈ [wUser] ∧
      verifyProof [wUser] wUser.address wUser.amountWhole wUser.amountFrac
        (getProof [wUser] wUser.address wUser.amountWhole wUser.amountFrac) = true :=
  ⟨by decide, verifyProof_getProof [wUser] wUser (by decide)⟩

/-! ### Order dependence of the root (C3) -/

/-- Concrete eligible users for counterexamples. -/
def exUser1 : EligibleUser := ⟨0xAAAA, [1, 0, 0, 0], []⟩

def exUser2 : EligibleUser := ⟨0xBBBB, [5, 0, 0], []⟩

def exUser3 : EligibleUser := ⟨0xCCCC, [2, 0, 0, 0], []⟩

/-- **C3, counterexample.** The root is *not* a pure function of the entry
set: rotating a concrete three-entry list (a permutation) changes
`getMerkleRoot`.  With `sortPairs` only each pair is order-independent; the
pairing itself still follows input order, so the odd third leaf pairs with
different partners in the two orders. -/
theorem getMerkleRoot_not_permutation_invariant :
    [exUser3, exUser1, exUser2].Perm [exUser1, exUser2, exUser3] ∧
      getMerkleRoot [exUser3, exUser1, exUser2] ≠
        getMerkleRoot [exUser1, exUser2, exUser3] := by
  constructor
  · decide
  · decide

/-- Swapping the two nodes of one bottom-level pair gives the same next
layer, for any commutative pair hash. -/
theorem hashLevel_swap_pair (f : Nat → Nat → Nat) (hc : ∀ a b : Nat, f a b = f b a) :
    ∀ (l1 : List Nat) (a b : Nat) (l2 : List Nat), l1.length % 2 = 0 →
      hashLevel f (l1 ++ a :: b :: l2) = hashLevel f (l1 ++ b :: a :: l2)
  | [], a, b, l2, _ => by simp [hashLevel, hc a b]
  | [_], _, _, _, h => by simp at h
  | x :: y :: rest, a, b, l2, h => by
    simp only [List.cons_append, hashLevel, List.append_eq]
    rw [hashLevel_swap_pair f hc rest a b l2
      (by simp only [List.length_cons] at h; omega)]

/-- Root computation as a plain recursion on levels. -/
def computeRootAux (f : Nat → Nat → Nat) : Nat → List Nat → Nat
  | 0, l => l.getD 0 0
  | fuel + 1, l =>
    if l.length ≤ 1 then l.getD 0 0 else computeRootAux f fuel (hashLevel f l)

theorem rootOfLayers_buildLayersAux (f : Nat → Nat → Nat) :
    ∀ (fuel : Nat) (l : List Nat),
      rootOfLayers (buildLayersAux f fuel l) = computeRootAux f fuel l
  | 0, l => by simp [buildLayersAux, computeRootAux, rootOfLayers]
  | fuel + 1, l => by
    unfold buildLayersAux computeRootAux
    split
    · rfl
    · rw [rootOfLayers_cons _ _ (buildLayersAux_ne_nil f fuel _)]
      exact rootOfLayers_buildLayersAux f fuel (hashLevel f l)

theorem computeRootAux_swap_pair (f : Nat → Nat → Nat)
    (hc : ∀ a b : Nat, f a b = f b a) (fuel : Nat) (l1 : List Nat) (a b : Nat)
    (l2 : List Nat) (heven : l1.length % 2 = 0) :
    computeRootAux f (fuel + 1) (l1 ++ a :: b :: l2) =
      computeRootAux f (fuel + 1) (l1 ++ b :: a :: l2) := by
  have hlen : ¬(l1 ++ a :: b :: l2).length ≤ 1 := by
    simp only [List.length_append, List.length_cons]
    omega
  have hlen' : ¬(l1 ++ b :: a :: l2).length ≤ 1 := by
    simp only [List.length_append, List.length_cons]
    omega
  unfold computeRootAux
  rw [if_neg hlen, if_neg hlen', hashLevel_swap_pair f hc l1 a b l2 heven]

/-- **C3, amended.** The root is invariant under swapping the two entries
of one bottom-level pair (entries at positions `2k` and `2k+1`), and in
particular under any reordering of a two-entry list; it is *not* invariant
under arbitrary permutations of the entry list (see the counterexample). -/
theorem getMerkleRoot_swap_within_pair (users1 users2 : List EligibleUser)
    (u v : EligibleUser) (heven : users1.length % 2 = 0) :
    getMerkleRoot (users1 ++ u :: v :: users2) =
      getMerkleRoot (users1 ++ v :: u :: users2) := by
  unfold getMerkleRoot getRootF buildLayers treeLeaves
  rw [rootOfLayers_buildLayersAux, rootOfLayers_buildLayersAux]
  simp only [List.map_append, List.map_cons, List.length_append, List.length_cons,
    List.length_map]
  have hfuel : users1.length + (users2.length + 1 + 1) =
      users1.length + (users2.length + 1) + 1 := by omega
  rw [hfuel]
  apply computeRootAux_swap_pair hashPairLe hashPairLe_comm
  simp only [List.length_map]
  omega

theorem getMerkleRoot_swap_within_pair_witness :
    ([] : List EligibleUser).length % 2 = 0 ∧
      getMerkleRoot ([] ++ exUser1 :: exUser2 :: []) =
        getMerkleRoot ([] ++ exUser2 :: exUser1 :: []) :=
  ⟨by decide, getMerkleRoot_swap_within_pair [] [] exUser1 exUser2 (by decide)⟩

/-! ### Proofs for non-members (C8) -/

theorem lastIndexOf_eq_none (x : Nat) :
    ∀ (l : List Nat), x ∉ l → lastIndexOf x l = none
  | [], _ => rfl
  | y :: ys, h => by
    unfold lastIndexOf
    rw [lastIndexOf_eq_none x ys (fun hy => h (List.mem_cons_of_mem y hy))]
    exact if_neg fun hyx => h (List.mem_cons.mpr (Or.inl hyx.symm))

/-- For a pair whose leaf is not among the tree's leaves, `getProof`
returns the empty proof: the index scan of `merkletreejs.getProof` finds no
matching leaf. -/
theorem getProof_not_mem (users : List EligibleUser) (address : Nat)
    (whole frac : List Nat)
    (h : createLeaf address whole frac ∉ treeLeaves users) :
    getProof users address whole frac = [] := by
  unfold getProof getProofF
  rw [lastIndexOf_eq_none _ _ h]

/-- Concrete instance: on a two-leaf tree, the empty proof returned for a
non-member pair does not verify (its leaf hash differs from the root). -/
theorem verifyProof_not_mem_example :
    getProof [exUser1, exUser2] exUser3.address exUser3.amountWhole
        exUser3.amountFrac = [] ∧
      verifyProof [exUser1, exUser2] exUser3.address exUser3.amountWhole
        exUser3.amountFrac [] = false := by
  constructor <;> decide

/-! ## The `PayCryptAirdrop` contract

Solidity 0.8 semantics: `uint256` values live below `2^256`, checked
arithmetic reverts with `Panic(0x11)` on overflow or underflow, and a
revert aborts the transaction leaving storage unchanged (modelled as
`Except.error`; `execOp` keeps the pre-state on error). -/

/-- The uint256 modulus. -/
def U256 : Nat := 2 ^ 256

/-- Revert conditions: the contract's named custom errors, the Solidity
arithmetic panic, the ERC-20 transfer revert bubbled through `SafeERC20`,
and the `Ownable` modifier failure. -/
inductive AirdropError where
  | ClaimPeriodEnded
  | ClaimPeriodNotStarted
  | AlreadyClaimed
  | InvalidProof
  | InvalidAmount
  | InsufficientTokens
  | ZeroAddress
  | Panic (code : Nat)
  | TransferFailed
  | NotOwner
deriving DecidableEq, Repr

/-- The storage of `PayCryptAirdrop` together with the balance map of the
ERC-20 `token`; `self` is the airdrop contract's own address and `owner`
the `Ownable` owner. -/
structure AirdropState where
  owner : Nat
  self : Nat
  merkleRoot : Nat
  claimPeriodEnd : Nat
  totalClaimable : Nat
  totalClaimed : Nat
  hasClaimed : Nat → Bool
  claimedAmount : Nat → Nat
  balanceOf : Nat → Nat

/-- Pointwise update of a mapping. -/
def mapUpdate {α : Type} (m : Nat → α) (k : Nat) (v : α) : Nat → α :=
  fun a => if a = k then v else m a

/-- Solidity 0.8 checked `uint256` addition. -/
def checkedAdd (a b : Nat) : Except AirdropError Nat :=
  if a + b < U256 then .ok (a + b) else .error (.Panic 0x11)

/-- Solidity 0.8 checked `uint256` subtraction. -/
def checkedSub (a b : Nat) : Except AirdropError Nat :=
  if b ≤ a then .ok (a - b) else .error (.Panic 0x11)

/-- `token.safeTransfer(toAddr, amount)` sent from the airdrop contract: an
OpenZeppelin ERC-20 `transfer`, which reverts when the contract's balance
is insufficient and otherwise moves `amount`; the two balance writes are
sequential (and unchecked in OpenZeppelin 4.8+, so the recipient balance
wraps modulo `2^256`). -/
def tokenTransfer (s : AirdropState) (toAddr amount : Nat) :
    Except AirdropError AirdropState :=
  let fromBalance := s.balanceOf s.self
  if fromBalance < amount then .error .TransferFailed
  else
    let b1 := mapUpdate s.balanceOf s.self (fromBalance - amount)
    let b2 := mapUpdate b1 toAddr ((b1 toAddr + amount) % U256)
    .ok { s with balanceOf := b2 }

/-- The constructor (part_000:452-465): requires a nonzero token address
and a claim period ending strictly after deployment time; nothing is
claimed initially. -/
def initialState (owner self tokenAddr root endT cap t : Nat)
    (bal : Nat → Nat) : Except AirdropError AirdropState :=
  if tokenAddr = 0 then .error .ZeroAddress
  else if endT ≤ t then .error .ClaimPeriodEnded
  else .ok {
    owner := owner
    self := self
    merkleRoot := root
    claimPeriodEnd := endT
    totalClaimable := cap
    totalClaimed := 0
    hasClaimed := fun _ => false
    claimedAmount := fun _ => 0
    balanceOf := bal }

/-- `PayCryptAirdrop.claimTokens(amount, merkleProof)` (part_000:474-503)
called by `sender` at `block.timestamp = t`.  Checks in source order:
window, already-claimed, zero amount, Merkle proof, cap (a checked
addition); then the state update and the token transfer. -/
def claimTokens (s : AirdropState) (t sender amount : Nat)
    (merkleProof : List Nat) : Except AirdropError AirdropState :=
  if s.claimPeriodEnd < t then .error .ClaimPeriodEnded
  else if s.hasClaimed sender then .error .AlreadyClaimed
  else if amount = 0 then .error .InvalidAmount
  else if merkleVerify merkleProof s.merkleRoot (claimLeaf sender amount) then
    match checkedAdd s.totalClaimed amount with
    | .error e => .error e
    | .ok sum =>
      if s.totalClaimable < sum then .error .InsufficientTokens
      else
        tokenTransfer
          { s with
            hasClaimed := mapUpdate s.hasClaimed sender true
            claimedAmount := mapUpdate s.claimedAmount sender amount
            totalClaimed := sum }
          sender amount
  else .error .InvalidProof

/-- `PayCryptAirdrop.canClaim(user, amount, merkleProof)` (part_000:512-526)
at `block.timestamp = t`.  Same five conditions as `claimTokens`, but the
cap check precedes the proof check. -/
def canClaim (s : AirdropState) (t user amount : Nat)
    (merkleProof : List Nat) : Except AirdropError Bool :=
  if s.claimPeriodEnd < t then .ok false
  else if s.hasClaimed user then .ok false
  else if amount = 0 then .ok false
  else
    match checkedAdd s.totalClaimed amount with
    | .error e => .error e
    | .ok sum =>
      if s.totalClaimable < sum then .ok false
      else .ok (merkleVerify merkleProof s.merkleRoot (claimLeaf user amount))

/-- `PayCryptAirdrop.getAirdropStats()` (part_000:557-573) at
`block.timestamp = t`: `(_totalClaimable, _totalClaimed, _remainingTokens,
_claimPeriodEnd, _isActive)` where `_remainingTokens` is the checked
subtraction `totalClaimable - totalClaimed`. -/
def getAirdropStats (s : AirdropState) (t : Nat) :
    Except AirdropError (Nat × Nat × Nat × Nat × Bool) :=
  match checkedSub s.totalClaimable s.totalClaimed with
  | .error e => .error e
  | .ok remaining =>
    .ok (s.totalClaimable, s.totalClaimed, remaining, s.claimPeriodEnd,
      decide (t ≤ s.claimPeriodEnd))

/-- `PayCryptAirdrop.updateAirdrop` (part_000:583-595, `onlyOwner`):
replaces root, window end and cap wholesale; only the new end is
validated. -/
def updateAirdrop (s : AirdropState) (t sender root newEnd newCap : Nat) :
    Except AirdropError AirdropState :=
  if sender ≠ s.owner then .error .NotOwner
  else if newEnd ≤ t then .error .ClaimPeriodEnded
  else .ok { s with
    merkleRoot := root
    claimPeriodEnd := newEnd
    totalClaimable := newCap }

/-- `PayCryptAirdrop.extendClaimPeriod` (part_000:614-617, `onlyOwner`);
`block.timestamp` is unused by its checks. -/
def extendClaimPeriod (s : AirdropState) (_t sender newEnd : Nat) :
    Except AirdropError AirdropState :=
  if sender ≠ s.owner then .error .NotOwner
  else if newEnd ≤ s.claimPeriodEnd then .error .InvalidAmount
  else .ok { s with claimPeriodEnd := newEnd }

/-- `PayCryptAirdrop.emergencyWithdraw` (part_000:600-608, `onlyOwner`):
after the window, send the whole remaining balance to the owner. -/
def emergencyWithdraw (s : AirdropState) (t sender : Nat) :
    Except AirdropError AirdropState :=
  if sender ≠ s.owner then .error .NotOwner
  else if t ≤ s.claimPeriodEnd then .error .ClaimPeriodNotStarted
  else if 0 < s.balanceOf s.self then tokenTransfer s s.owner (s.balanceOf s.self)
  else .ok s

/-- One external transaction: the operation, its caller, and the block
timestamp it executes at. -/
inductive AirdropOp where
  | claim (t sender amount : Nat) (merkleProof : List Nat)
  | update (t sender root newEnd newCap : Nat)
  | extend (t sender newEnd : Nat)
  | withdraw (t sender : Nat)

/-- Run one transaction: the new state on success, the unchanged pre-state
when it reverts. -/
def execOp (s : AirdropState) : AirdropOp → AirdropState
  | .claim t sender amount proof =>
    match claimTokens s t sender amount proof with
    | .ok s' => s'
    | .error _ => s
  | .update t sender root newEnd newCap =>
    match updateAirdrop s t sender root newEnd newCap with
    | .ok s' => s'
    | .error _ => s
  | .extend t sender newEnd =>
    match extendClaimPeriod s t sender newEnd with
    | .ok s' => s'
    | .error _ => s
  | .withdraw t sender =>
    match emergencyWithdraw s t sender with
    | .ok s' => s'
    | .error _ => s

/-- States reachable from a successfully deployed contract by any sequence
of transactions. -/
inductive Reachable : AirdropState → Prop where
  | deployed : ∀ (owner self tokenAddr root endT cap t : Nat) (bal : Nat → Nat)
      (s : AirdropState), initialState owner self tokenAddr root endT cap t bal = .ok s →
      Reachable s
  | step : ∀ (s : AirdropState) (op : AirdropOp), Reachable s → Reachable (execOp s op)

/-! ### Branch lemmas for `claimTokens` -/

theorem claimTokens_period_ended (s : AirdropState) (t sender amount : Nat)
    (proof : List Nat) (h : s.claimPeriodEnd < t) :
    claimTokens s t sender amount proof = .error .ClaimPeriodEnded := by
  unfold claimTokens
  rw [if_pos h]

theorem claimTokens_already_claimed (s : AirdropState) (t sender amount : Nat)
    (proof : List Nat) (h1 : t ≤ s.claimPeriodEnd)
    (h2 : s.hasClaimed sender = true) :
    claimTokens s t sender amount proof = .error .AlreadyClaimed := by
  unfold claimTokens
  rw [if_neg (by omega), if_pos h2]

theorem claimTokens_zero_amount (s : AirdropState) (t sender : Nat)
    (proof : List Nat) (h1 : t ≤ s.claimPeriodEnd)
    (h2 : s.hasClaimed sender = false) :
    claimTokens s t sender 0 proof = .error .InvalidAmount := by
  unfold claimTokens
  rw [if_neg (by omega), if_neg (by simp [h2]), if_pos rfl]

theorem claimTokens_bad_proof (s : AirdropState) (t sender amount : Nat)
    (proof : List Nat) (h1 : t ≤ s.claimPeriodEnd)
    (h2 : s.hasClaimed sender = false) (h3 : amount ≠ 0)
    (h4 : merkleVerify proof s.merkleRoot (claimLeaf sender amount) = false) :
    claimTokens s t sender amount proof = .error .InvalidProof := by
  unfold claimTokens
  rw [if_neg (by omega), if_neg (by simp [h2]), if_neg h3, if_neg (by simp [h4])]

theorem claimTokens_overflow (s : AirdropState) (t sender amount : Nat)
    (proof : List Nat) (h1 : t ≤ s.claimPeriodEnd)
    (h2 : s.hasClaimed sender = false) (h3 : amount ≠ 0)
    (h4 : merkleVerify proof s.merkleRoot (claimLeaf sender amount) = true)
    (h5 : ¬ s.totalClaimed + amount < U256) :
    claimTokens s t sender amount proof = .error (.Panic 0x11) := by
  simp only [claimTokens, checkedAdd, if_neg (show ¬ s.claimPeriodEnd < t by omega),
    if_neg (show ¬ s.hasClaimed sender = true by simp [h2]), if_neg h3, if_pos h4,
    if_neg h5]

theorem claimTokens_cap_exceeded (s : AirdropState) (t sender amount : Nat)
    (proof : List Nat) (h1 : t ≤ s.claimPeriodEnd)
    (h2 : s.hasClaimed sender = false) (h3 : amount ≠ 0)
    (h4 : merkleVerify proof s.merkleRoot (claimLeaf sender amount) = true)
    (h5 : s.totalClaimed + amount < U256)
    (h6 : s.totalClaimable < s.totalClaimed + amount) :
    claimTokens s t sender amount proof = .error .InsufficientTokens := by
  simp only [claimTokens, checkedAdd, if_neg (show ¬ s.claimPeriodEnd < t by omega),
    if_neg (show ¬ s.hasClaimed sender = true by simp [h2]), if_neg h3, if_pos h4,
    if_pos h5, if_pos h6]

theorem claimTokens_success_eq (s : AirdropState) (t sender amount : Nat)
    (proof : List Nat) (h1 : t ≤ s.claimPeriodEnd)
    (h2 : s.hasClaimed sender = false) (h3 : amount ≠ 0)
    (h4 : merkleVerify proof s.merkleRoot (claimLeaf sender amount) = true)
    (h5 : s.totalClaimed + amount < U256)
    (h6 : ¬ s.totalClaimable < s.totalClaimed + amount) :
    claimTokens s t sender amount proof =
      tokenTransfer
        { s with
          hasClaimed := mapUpdate s.hasClaimed sender true
          claimedAmount := mapUpdate s.claimedAmount sender amount
          totalClaimed := s.totalClaimed + amount }
        sender amount := by
  simp only [claimTokens, checkedAdd, if_neg (show ¬ s.claimPeriodEnd < t by omega),
    if_neg (show ¬ s.hasClaimed sender = true by simp [h2]), if_neg h3, if_pos h4,
    if_pos h5, if_neg h6]

theorem tokenTransfer_ok_inv (s : AirdropState) (toAddr amount : Nat)
    (s' : AirdropState) (h : tokenTransfer s toAddr amount = .ok s') :
    amount ≤ s.balanceOf s.self ∧ s'.owner = s.owner ∧ s'.self = s.self ∧
      s'.merkleRoot = s.merkleRoot ∧ s'.claimPeriodEnd = s.claimPeriodEnd ∧
      s'.totalClaimable = s.totalClaimable ∧ s'.totalClaimed = s.totalClaimed ∧
      s'.hasClaimed = s.hasClaimed ∧ s'.claimedAmount = s.claimedAmount := by
  simp only [tokenTransfer] at h
  by_cases hb : s.balanceOf s.self < amount
  · rw [if_pos hb] at h
    simp at h
  · rw [if_neg hb] at h
    injection h with h
    subst h
    refine ⟨by omega, rfl, rfl, rfl, rfl, rfl, rfl, rfl, rfl⟩

/-- Inversion of a successful claim: every check passed and the post-state
is the pre-state with the claim recorded and the tokens moved. -/
theorem claimTokens_ok_inv (s : AirdropState) (t sender amount : Nat)
    (proof : List Nat) (s' : AirdropState)
    (h : claimTokens s t sender amount proof = .ok s') :
    t ≤ s.claimPeriodEnd ∧ s.hasClaimed sender = false ∧ amount ≠ 0 ∧
      merkleVerify proof s.merkleRoot (claimLeaf sender amount) = true ∧
      s.totalClaimed + amount ≤ s.totalClaimable ∧
      s'.owner = s.owner ∧ s'.self = s.self ∧ s'.merkleRoot = s.merkleRoot ∧
      s'.claimPeriodEnd = s.claimPeriodEnd ∧
      s'.totalClaimable = s.totalClaimable ∧
      s'.totalClaimed = s.totalClaimed + amount ∧
      s'.hasClaimed = mapUpdate s.hasClaimed sender true ∧
      s'.claimedAmount = mapUpdate s.claimedAmount sender amount := by
  have h1 : t ≤ s.claimPeriodEnd := by
    by_contra h1
    rw [claimTokens_period_ended s t sender amount proof (by omega)] at h
    simp at h
  have h2 : s.hasClaimed sender = false := by
    cases hc : s.hasClaimed sender with
    | false => rfl
    | true =>
      rw [claimTokens_already_claimed s t sender amount proof h1 hc] at h
      simp at h
  have h3 : amount ≠ 0 := by
    intro h3
    subst h3
    rw [claimTokens_zero_amount s t sender proof h1 h2] at h
    simp at h
  have h4 : merkleVerify proof s.merkleRoot (claimLeaf sender amount) = true := by
    cases hv : merkleVerify proof s.merkleRoot (claimLeaf sender amount) with
    | true => rfl
    | false =>
      rw [claimTokens_bad_proof s t sender amount proof h1 h2 h3 hv] at h
      simp at h
  have h5 : s.totalClaimed + amount < U256 := by
    by_contra h5
    rw [claimTokens_overflow s t sender amount proof h1 h2 h3 h4 h5] at h
    simp at h
  have h6 : s.totalClaimed + amount ≤ s.totalClaimable := by
    by_contra h6
    rw [claimTokens_cap_exceeded s t sender amount proof h1 h2 h3 h4 h5 (by omega)] at h
    simp at h
  rw [claimTokens_success_eq s t sender amount proof h1 h2 h3 h4 h5 (by omega)] at h
  have hinv := tokenTransfer_ok_inv _ sender amount s' h
  simp only at hinv
  exact ⟨h1, h2, h3, h4, h6, hinv.2.1, hinv.2.2.1, hinv.2.2.2.1, hinv.2.2.2.2.1,
    hinv.2.2.2.2.2.1, hinv.2.2.2.2.2.2.1, hinv.2.2.2.2.2.2.2.1, hinv.2.2.2.2.2.2.2.2⟩

theorem updateAirdrop_ok_inv (s : AirdropState) (t sender root newEnd newCap : Nat)
    (s' : AirdropState) (h : updateAirdrop s t sender root newEnd newCap = .ok s') :
    sender = s.owner ∧ t < newEnd ∧
      s' = { s with
        merkleRoot := root
        claimPeriodEnd := newEnd
        totalClaimable := newCap } := by
  unfold updateAirdrop at h
  by_cases h1 : sender ≠ s.owner
  · rw [if_pos h1] at h
    simp at h
  · rw [if_neg h1] at h
    by_cases h2 : newEnd ≤ t
    · rw [if_pos h2] at h
      simp at h
    · rw [if_neg h2] at h
      injection h with h
      exact ⟨by omega, by omega, h.symm⟩

theorem extendClaimPeriod_ok_inv (s : AirdropState) (t sender newEnd : Nat)
    (s' : AirdropState) (h : extendClaimPeriod s t sender newEnd = .ok s') :
    sender = s.owner ∧ s.claimPeriodEnd < newEnd ∧
      s' = { s with claimPeriodEnd := newEnd } := by
  unfold extendClaimPeriod at h
  by_cases h1 : sender ≠ s.owner
  · rw [if_pos h1] at h
    simp at h
  · rw [if_neg h1] at h
    by_cases h2 : newEnd ≤ s.claimPeriodEnd
    · rw [if_pos h2] at h
      simp at h
    · rw [if_neg h2] at h
      injection h with h
      exact ⟨by omega, by omega, h.symm⟩

theorem emergencyWithdraw_ok_inv (s : AirdropState) (t sender : Nat)
    (s' : AirdropState) (h : emergencyWithdraw s t sender = .ok s') :
    s'.owner = s.owner ∧ s'.self = s.self ∧ s'.merkleRoot = s.merkleRoot ∧
      s'.claimPeriodEnd = s.claimPeriodEnd ∧ s'.totalClaimable = s.totalClaimable ∧
      s'.totalClaimed = s.totalClaimed ∧ s'.hasClaimed = s.hasClaimed ∧
      s'.claimedAmount = s.claimedAmount := by
  unfold emergencyWithdraw at h
  by_cases h1 : sender ≠ s.owner
  · rw [if_pos h1] at h
    simp at h
  · rw [if_neg h1] at h
    by_cases h2 : t ≤ s.claimPeriodEnd
    · rw [if_pos h2] at h
      simp at h
    · rw [if_neg h2] at h
      by_cases h3 : 0 < s.balanceOf s.self
      · rw [if_pos h3] at h
        have hi := tokenTransfer_ok_inv s s.owner (s.balanceOf s.self) s' h
        exact ⟨hi.2.1, hi.2.2.1, hi.2.2.2.1, hi.2.2.2.2.1, hi.2.2.2.2.2.1,
          hi.2.2.2.2.2.2.1, hi.2.2.2.2.2.2.2.1, hi.2.2.2.2.2.2.2.2⟩
      · rw [if_neg h3] at h
        injection h with h
        subst h
        exact ⟨rfl, rfl, rfl, rfl, rfl, rfl, rfl, rfl⟩

theorem initialState_ok_inv (owner self tokenAddr root endT cap t : Nat)
    (bal : Nat → Nat) (s : AirdropState)
    (h : initialState owner self tokenAddr root endT cap t bal = .ok s) :
    s.totalClaimed = 0 ∧ s.totalClaimable = cap ∧
      (∀ a, s.hasClaimed a = false) ∧ ∀ a, s.claimedAmount a = 0 := by
  unfold initialState at h
  by_cases h1 : tokenAddr = 0
  · rw [if_pos h1] at h
    simp at h
  · rw [if_neg h1] at h
    by_cases h2 : endT ≤ t
    · rw [if_pos h2] at h
      simp at h
    · rw [if_neg h2] at h
      injection h with h
      subst h
      exact ⟨rfl, rfl, fun _ => rfl, fun _ => rfl⟩

/-! ### C7: nothing succeeds after the window end -/

/-- **C7.** For every state with `block.timestamp > claimPeriodEnd`,
`claimTokens` reverts with `ClaimPeriodEnded` for every caller, every
amount, and every proof — including proofs that correctly recompute the
stored root — so no claim succeeds after the window end. -/
theorem claimTokens_after_window_end (s : AirdropState) (t sender amount : Nat)
    (proof : List Nat) (h : s.claimPeriodEnd < t) :
    claimTokens s t sender amount proof = .error .ClaimPeriodEnded ∧
      ∀ s', claimTokens s t sender amount proof ≠ .ok s' := by
  refine ⟨claimTokens_period_ended s t sender amount proof h, ?_⟩
  intro s' hk
  rw [claimTokens_period_ended s t sender amount proof h] at hk
  simp at hk

/-- A keccak-free concrete state for cheap witnesses. -/
def wState : AirdropState := {
  owner := 1
  self := 2
  merkleRoot := 0
  claimPeriodEnd := 100
  totalClaimable := 1000
  totalClaimed := 0
  hasClaimed := fun _ => false
  claimedAmount := fun _ => 0
  balanceOf := fun a => if a = 2 then 1000 else 0 }

theorem claimTokens_after_window_end_witness :
    wState.claimPeriodEnd < 101 ∧
      (claimTokens wState 101 3 5 [] = .error .ClaimPeriodEnded ∧
        ∀ s', claimTokens wState 101 3 5 [] ≠ .ok s') :=
  ⟨by decide, claimTokens_after_window_end wState 101 3 5 [] (by decide)⟩

/-! ### C4: each failing check maps to its named error -/

/-- A uint256-valid state one token short of the `totalClaimed` overflow
bound, whose stored root equals the leaf of `(sender, amount) = (4, 2)` so
that the empty proof verifies. -/
def ovState : AirdropState := {
  owner := 1
  self := 2
  merkleRoot := claimLeaf 4 2
  claimPeriodEnd := 100
  totalClaimable := 10
  totalClaimed := U256 - 1
  hasClaimed := fun _ => false
  claimedAmount := fun _ => 0
  balanceOf := fun a => if a = 2 then 1000 else 0 }

/-- **C4, counterexample.** In a state where `totalClaimed + amount`
mathematically exceeds `totalClaimable` while every earlier check passes
(window open, not claimed, nonzero amount, proof verifying), the call can
revert with the Solidity arithmetic panic instead of `InsufficientTokens`:
the checked addition `totalClaimed + amount` overflows uint256 before the
comparison with the cap runs. -/
theorem claimTokens_cap_not_insufficient :
    ovState.totalClaimable < ovState.totalClaimed + 2 ∧
      merkleVerify [] ovState.merkleRoot (claimLeaf 4 2) = true ∧
      claimTokens ovState 10 4 2 [] = .error (.Panic 0x11) ∧
      claimTokens ovState 10 4 2 [] ≠ .error .InsufficientTokens := by
  refine ⟨by decide, by decide, ?_, ?_⟩
  · exact claimTokens_overflow ovState 10 4 2 [] (by decide) rfl (by decide)
      (by decide) (by decide)
  · intro hk
    rw [claimTokens_overflow ovState 10 4 2 [] (by decide) rfl (by decide)
      (by decide) (by decide)] at hk
    simp at hk

/-- **C4, amended.** For every contract state and call to `claimTokens`:
an elapsed window reverts with `ClaimPeriodEnded`; otherwise a prior claim
reverts with `AlreadyClaimed`; otherwise a zero amount reverts with
`InvalidAmount`; otherwise a non-verifying proof reverts with
`InvalidProof`; otherwise, when `totalClaimed + amount` does not overflow
uint256, exceeding `totalClaimable` reverts with `InsufficientTokens`
(when it overflows, the call reverts with `Panic(0x11)` instead); and
every reverted call leaves the state unchanged. -/
theorem claimTokens_error_cases (s : AirdropState) (t sender amount : Nat)
    (proof : List Nat) :
    (s.claimPeriodEnd < t →
      claimTokens s t sender amount proof = .error .ClaimPeriodEnded) ∧
    (t ≤ s.claimPeriodEnd → s.hasClaimed sender = true →
      claimTokens s t sender amount proof = .error .AlreadyClaimed) ∧
    (t ≤ s.claimPeriodEnd → s.hasClaimed sender = false → amount = 0 →
      claimTokens s t sender amount proof = .error .InvalidAmount) ∧
    (t ≤ s.claimPeriodEnd → s.hasClaimed sender = false → amount ≠ 0 →
      merkleVerify proof s.merkleRoot (claimLeaf sender amount) = false →
      claimTokens s t sender amount proof = .error .InvalidProof) ∧
    (t ≤ s.claimPeriodEnd → s.hasClaimed sender = false → amount ≠ 0 →
      merkleVerify proof s.merkleRoot (claimLeaf sender amount) = true →
      s.totalClaimed + amount < U256 →
      s.totalClaimable < s.totalClaimed + amount →
      claimTokens s t sender amount proof = .error .InsufficientTokens) ∧
    (∀ e, claimTokens s t sender amount proof = .error e →
      execOp s (.claim t sender amount proof) = s) := by
  refine ⟨fun h => claimTokens_period_ended s t sender amount proof h,
    fun h1 h2 => claimTokens_already_claimed s t sender amount proof h1 h2,
    fun h1 h2 h3 => ?_,
    fun h1 h2 h3 h4 => claimTokens_bad_proof s t sender amount proof h1 h2 h3 h4,
    fun h1 h2 h3 h4 h5 h6 =>
      claimTokens_cap_exceeded s t sender amount proof h1 h2 h3 h4 h5 h6,
    fun e he => ?_⟩
  · subst h3
    exact claimTokens_zero_amount s t sender proof h1 h2
  · simp only [execOp, he]

/-- Witness state for the `AlreadyClaimed` branch. -/
def wClaimedState : AirdropState := { wState with hasClaimed := fun a => decide (a = 4) }

theorem claimTokens_error_cases_witness :
    (10 ≤ wClaimedState.claimPeriodEnd ∧ wClaimedState.hasClaimed 4 = true) ∧
      claimTokens wClaimedState 10 4 5 [] = .error .AlreadyClaimed :=
  ⟨⟨by decide, by decide⟩,
    (claimTokens_error_cases wClaimedState 10 4 5 []).2.1 (by decide) (by decide)⟩

/-! ### C5: one claim per address, records never reset -/

/-- Balances for the deployment used in counterexamples: the airdrop
contract (address 2) holds 1000 tokens. -/
def cexBal : Nat → Nat := fun a => if a = 2 then 1000 else 0

/-- A deployed state whose root commits to the single pair `(4, 5)`. -/
def cexState0 : AirdropState := {
  owner := 1
  self := 2
  merkleRoot := claimLeaf 4 5
  claimPeriodEnd := 100
  totalClaimable := 1000
  totalClaimed := 0
  hasClaimed := fun _ => false
  claimedAmount := fun _ => 0
  balanceOf := cexBal }

/-- `cexState0` after address 4 claims its 5 tokens at time 10. -/
def cexState1 : AirdropState := execOp cexState0 (.claim 10 4 5 [])

theorem reachable_cexState0 : Reachable cexState0 :=
  Reachable.deployed 1 2 3 (claimLeaf 4 5) 100 1000 0 cexBal cexState0 rfl

theorem reachable_cexState1 : Reachable cexState1 :=
  Reachable.step cexState0 (.claim 10 4 5 []) reachable_cexState0

/-- **C5, counterexample.** In a reachable state where address 4 has
already claimed, a further `claimTokens` call from 4 sent after the window
end reverts with `ClaimPeriodEnded`, not `AlreadyClaimed` (the window
check runs first). -/
theorem second_claim_after_window_not_already_claimed :
    Reachable cexState1 ∧ cexState1.hasClaimed 4 = true ∧
      claimTokens cexState1 101 4 5 [] = .error .ClaimPeriodEnded ∧
      claimTokens cexState1 101 4 5 [] ≠ .error .AlreadyClaimed := by
  refine ⟨reachable_cexState1, by decide, ?_, ?_⟩
  · exact claimTokens_period_ended cexState1 101 4 5 [] (by decide)
  · intro hk
    rw [claimTokens_period_ended cexState1 101 4 5 [] (by decide)] at hk
    simp at hk

/-- **C5, amended.** In every reachable state where `hasClaimed[a]` holds,
a further `claimTokens` call from `a` *within the window* reverts with
`AlreadyClaimed` (after the window it reverts with `ClaimPeriodEnded`
instead), and no operation of the contract — another claim, the owner's
`updateAirdrop` reconfiguration, `extendClaimPeriod`, or
`emergencyWithdraw` — resets `hasClaimed[a]` or changes
`claimedAmount[a]`. -/
theorem claim_record_permanent (s : AirdropState) (a : Nat)
    (_hs : Reachable s) (hclaimed : s.hasClaimed a = true) :
    (∀ t amount proof, t ≤ s.claimPeriodEnd →
      claimTokens s t a amount proof = .error .AlreadyClaimed) ∧
    (∀ t amount proof, s.claimPeriodEnd < t →
      claimTokens s t a amount proof = .error .ClaimPeriodEnded) ∧
    (∀ op : AirdropOp, (execOp s op).hasClaimed a = true ∧
      (execOp s op).claimedAmount a = s.claimedAmount a) := by
  refine ⟨fun t amount proof ht =>
      claimTokens_already_claimed s t a amount proof ht hclaimed,
    fun t amount proof ht => claimTokens_period_ended s t a amount proof ht, ?_⟩
  intro op
  cases op with
  | claim t sender amount proof =>
    cases hres : claimTokens s t sender amount proof with
    | error e =>
      simp only [execOp, hres]
      exact ⟨hclaimed, True.intro⟩
    | ok s' =>
      simp only [execOp, hres]
      obtain ⟨_, h2, _, _, _, _, _, _, _, _, _, hHC, hCA⟩ :=
        claimTokens_ok_inv s t sender amount proof s' hres
      have hne : a ≠ sender := by
        intro he
        subst he
        rw [hclaimed] at h2
        simp at h2
      rw [hHC, hCA]
      unfold mapUpdate
      rw [if_neg hne, if_neg hne]
      exact ⟨hclaimed, rfl⟩
  | update t sender root newEnd newCap =>
    cases hres : updateAirdrop s t sender root newEnd newCap with
    | error e =>
      simp only [execOp, hres]
      exact ⟨hclaimed, True.intro⟩
    | ok s' =>
      simp only [execOp, hres]
      obtain ⟨_, _, hs'⟩ := updateAirdrop_ok_inv s t sender root newEnd newCap s' hres
      subst hs'
      exact ⟨hclaimed, rfl⟩
  | extend t sender newEnd =>
    cases hres : extendClaimPeriod s t sender newEnd with
    | error e =>
      simp only [execOp, hres]
      exact ⟨hclaimed, True.intro⟩
    | ok s' =>
      simp only [execOp, hres]
      obtain ⟨_, _, hs'⟩ := extendClaimPeriod_ok_inv s t sender newEnd s' hres
      subst hs'
      exact ⟨hclaimed, rfl⟩
  | withdraw t sender =>
    cases hres : emergencyWithdraw s t sender with
    | error e =>
      simp only [execOp, hres]
      exact ⟨hclaimed, True.intro⟩
    | ok s' =>
      simp only [execOp, hres]
      obtain ⟨_, _, _, _, _, _, hHC, hCA⟩ := emergencyWithdraw_ok_inv s t sender s' hres
      rw [hHC, hCA]
      exact ⟨hclaimed, rfl⟩

theorem claim_record_permanent_witness :
    (Reachable cexState1 ∧ cexState1.hasClaimed 4 = true) ∧
      claimTokens cexState1 50 4 7 [] = .error .AlreadyClaimed :=
  ⟨⟨reachable_cexState1, by decide⟩,
    (claim_record_permanent cexState1 4 reachable_cexState1 (by decide)).1
      50 7 [] (by decide)⟩

/-! ### C6: the cumulative cap invariant -/

/-- `cexState1` after the owner reconfigures the airdrop with a cap of 0
(below the 5 tokens already claimed). -/
def cexState2 : AirdropState := execOp cexState1 (.update 20 1 0 200 0)

/-- **C6, counterexample.** The invariant `totalClaimed ≤ totalClaimable`
is *not* preserved by every operation sequence: the state reached by
deploy, claim(4, 5), then `updateAirdrop` with `_totalClaimable = 0` is
reachable and has `totalClaimed = 5 > 0 = totalClaimable`. -/
theorem totalClaimed_can_exceed_cap :
    Reachable cexState2 ∧ cexState2.totalClaimable < cexState2.totalClaimed :=
  ⟨Reachable.step cexState1 (.update 20 1 0 200 0) reachable_cexState1, by decide⟩

/-- The discipline the spec assumes of the owner: an `updateAirdrop` never
sets the cap below what is already claimed; other operations are
unrestricted. -/
def CapRespecting (s : AirdropState) : AirdropOp → Prop
  | .update _ _ _ _ newCap => s.totalClaimed ≤ newCap
  | _ => True

/-- Reachability along transactions whose `updateAirdrop` calls respect
the already-claimed total. -/
inductive ReachableCap : AirdropState → Prop where
  | deployed : ∀ (owner self tokenAddr root endT cap t : Nat) (bal : Nat → Nat)
      (s : AirdropState),
      initialState owner self tokenAddr root endT cap t bal = .ok s → ReachableCap s
  | step : ∀ (s : AirdropState) (op : AirdropOp), ReachableCap s →
      CapRespecting s op → ReachableCap (execOp s op)

/-- **C6, amended.** `totalClaimed ≤ totalClaimable` holds in every state
reachable from a valid constructor state when every `updateAirdrop` sets
the new cap at or above the current `totalClaimed` (without that
restriction the invariant fails, see the counterexample); and a
`claimTokens` whose amount would push `totalClaimed` past `totalClaimable`
(the checked sum not overflowing) reverts with `InsufficientTokens` and
leaves the state unchanged. -/
theorem totalClaimed_le_cap :
    (∀ s : AirdropState, ReachableCap s → s.totalClaimed ≤ s.totalClaimable) ∧
    (∀ (s : AirdropState) (t sender amount : Nat) (proof : List Nat),
      t ≤ s.claimPeriodEnd → s.hasClaimed sender = false → amount ≠ 0 →
      merkleVerify proof s.merkleRoot (claimLeaf sender amount) = true →
      s.totalClaimed + amount < U256 →
      s.totalClaimable < s.totalClaimed + amount →
      claimTokens s t sender amount proof = .error .InsufficientTokens ∧
        execOp s (.claim t sender amount proof) = s) := by
  constructor
  · intro s hs
    induction hs with
    | deployed owner self tokenAddr root endT cap t bal s h =>
      obtain ⟨h0, hcap, _, _⟩ := initialState_ok_inv owner self tokenAddr root endT
        cap t bal s h
      omega
    | step s op hreach hcap ih =>
      cases op with
      | claim t sender amount proof =>
        cases hres : claimTokens s t sender amount proof with
        | error e =>
          simp only [execOp, hres]
          exact ih
        | ok s' =>
          simp only [execOp, hres]
          obtain ⟨_, _, _, _, h6, _, _, _, _, hcap', hclaimed', _, _⟩ :=
            claimTokens_ok_inv s t sender amount proof s' hres
          omega
      | update t sender root newEnd newCap =>
        cases hres : updateAirdrop s t sender root newEnd newCap with
        | error e =>
          simp only [execOp, hres]
          exact ih
        | ok s' =>
          simp only [execOp, hres]
          obtain ⟨_, _, hs'⟩ := updateAirdrop_ok_inv s t sender root newEnd newCap s' hres
          subst hs'
          simpa using hcap
      | extend t sender newEnd =>
        cases hres : extendClaimPeriod s t sender newEnd with
        | error e =>
          simp only [execOp, hres]
          exact ih
        | ok s' =>
          simp only [execOp, hres]
          obtain ⟨_, _, hs'⟩ := extendClaimPeriod_ok_inv s t sender newEnd s' hres
          subst hs'
          simpa using ih
      | withdraw t sender =>
        cases hres : emergencyWithdraw s t sender with
        | error e =>
          simp only [execOp, hres]
          exact ih
        | ok s' =>
          simp only [execOp, hres]
          obtain ⟨_, _, _, _, hcap', hclaimed', _, _⟩ :=
            emergencyWithdraw_ok_inv s t sender s' hres
          omega
  · intro s t sender amount proof h1 h2 h3 h4 h5 h6
    refine ⟨claimTokens_cap_exceeded s t sender amount proof h1 h2 h3 h4 h5 h6, ?_⟩
    simp only [execOp, claimTokens_cap_exceeded s t sender amount proof h1 h2 h3 h4 h5 h6]

theorem totalClaimed_le_cap_witness :
    cexState0.totalClaimed ≤ cexState0.totalClaimable :=
  totalClaimed_le_cap.1 cexState0
    (ReachableCap.deployed 1 2 3 (claimLeaf 4 5) 100 1000 0 cexBal cexState0 rfl)

/-! ### C9: `canClaim` agrees with `claimTokens` -/

theorem tokenTransfer_ok_of_le (s : AirdropState) (toAddr amount : Nat)
    (h : amount ≤ s.balanceOf s.self) :
    ∃ s', tokenTransfer s toAddr amount = .ok s' := by
  simp only [tokenTransfer, if_neg (show ¬ s.balanceOf s.self < amount by omega)]
  exact ⟨_, rfl⟩

/-- **C9.** For every contract state, user, amount and proof, the view
function `canClaim(user, amount, proof)` returns `true` exactly when a
`claimTokens(amount, proof)` transaction sent by `user` in that state
succeeds, assuming the token transfer itself does not fail (the contract
balance covers the amount): both evaluate the same conjunction of window,
already-claimed, nonzero-amount, cap and Merkle-proof conditions (and both
revert with the same arithmetic panic when the cap check overflows). -/
theorem canClaim_iff_claimTokens (s : AirdropState) (t user amount : Nat)
    (proof : List Nat) (htransfer : amount ≤ s.balanceOf s.self) :
    canClaim s t user amount proof = .ok true ↔
      ∃ s', claimTokens s t user amount proof = .ok s' := by
  by_cases h1 : s.claimPeriodEnd < t
  · rw [claimTokens_period_ended s t user amount proof h1]
    simp [canClaim, if_pos h1]
  · have h1' : t ≤ s.claimPeriodEnd := by omega
    cases hC : s.hasClaimed user with
    | true =>
      rw [claimTokens_already_claimed s t user amount proof h1' hC]
      simp [canClaim, h1, hC]
    | false =>
      by_cases hA : amount = 0
      · subst hA
        rw [claimTokens_zero_amount s t user proof h1' hC]
        simp [canClaim, h1, hC]
      · by_cases hov : s.totalClaimed + amount < U256
        · by_cases hcap : s.totalClaimable < s.totalClaimed + amount
          · cases hv : merkleVerify proof s.merkleRoot (claimLeaf user amount) with
            | true =>
              rw [claimTokens_cap_exceeded s t user amount proof h1' hC hA hv hov hcap]
              simp [canClaim, checkedAdd, h1, hC, hA, hov, hcap]
            | false =>
              rw [claimTokens_bad_proof s t user amount proof h1' hC hA hv]
              simp [canClaim, checkedAdd, h1, hC, hA, hov, hcap]
          · cases hv : merkleVerify proof s.merkleRoot (claimLeaf user amount) with
            | false =>
              rw [claimTokens_bad_proof s t user amount proof h1' hC hA hv]
              simp [canClaim, checkedAdd, h1, hC, hA, hov, hcap, hv]
            | true =>
              rw [claimTokens_success_eq s t user amount proof h1' hC hA hv hov hcap]
              simp [canClaim, checkedAdd, h1, hC, hA, hov, hcap, hv]
              exact tokenTransfer_ok_of_le _ user amount htransfer
        · cases hv : merkleVerify proof s.merkleRoot (claimLeaf user amount) with
          | true =>
            rw [claimTokens_overflow s t user amount proof h1' hC hA hv hov]
            simp [canClaim, checkedAdd, h1, hC, hA, hov]
          | false =>
            rw [claimTokens_bad_proof s t user amount proof h1' hC hA hv]
            simp [canClaim, checkedAdd, h1, hC, hA, hov]

theorem canClaim_iff_claimTokens_witness :
    5 ≤ cexState0.balanceOf cexState0.self ∧
      (canClaim cexState0 10 4 5 [] = .ok true ↔
        ∃ s', claimTokens cexState0 10 4 5 [] = .ok s') :=
  ⟨by decide, canClaim_iff_claimTokens cexState0 10 4 5 [] (by decide)⟩

/-! ### C10: `getAirdropStats` and the cap invariant -/

/-- **C10.** `getAirdropStats` is only safe under the cap invariant: when
`totalClaimed ≤ totalClaimable` it returns the stats tuple with
`_remainingTokens = totalClaimable - totalClaimed` (no underflow), but in
a state with `totalClaimed > totalClaimable` the checked subtraction
underflows and the call reverts with `Panic(0x11)`; and such a state is
reachable because the owner's `updateAirdrop` accepts any
`_totalClaimable` below the current `totalClaimed`. -/
theorem getAirdropStats_cap (s : AirdropState) (t : Nat) :
    (s.totalClaimed ≤ s.totalClaimable →
      getAirdropStats s t = .ok (s.totalClaimable, s.totalClaimed,
        s.totalClaimable - s.totalClaimed, s.claimPeriodEnd,
        decide (t ≤ s.claimPeriodEnd))) ∧
    (s.totalClaimable < s.totalClaimed →
      getAirdropStats s t = .error (.Panic 0x11)) ∧
    (∀ root newEnd newCap : Nat, t < newEnd → newCap < s.totalClaimed →
      ∃ s', updateAirdrop s t s.owner root newEnd newCap = .ok s' ∧
        s'.totalClaimable < s'.totalClaimed) := by
  refine ⟨fun h => ?_, fun h => ?_, fun root newEnd newCap hend hcap => ?_⟩
  · simp only [getAirdropStats, checkedSub, if_pos h]
  · simp only [getAirdropStats, checkedSub,
      if_neg (show ¬ s.totalClaimed ≤ s.totalClaimable by omega)]
  · refine ⟨{ s with
      merkleRoot := root
      claimPeriodEnd := newEnd
      totalClaimable := newCap }, ?_, ?_⟩
    · simp only [updateAirdrop, if_neg (show ¬ s.owner ≠ s.owner by simp),
        if_neg (show ¬ newEnd ≤ t by omega)]
    · simpa using hcap

/-- Witness state with more claimed than the (reconfigured) cap. -/
def wOverState : AirdropState := { wState with
  totalClaimable := 3
  totalClaimed := 7 }

theorem getAirdropStats_cap_witness :
    wOverState.totalClaimable < wOverState.totalClaimed ∧
      getAirdropStats wOverState 0 = .error (.Panic 0x11) :=
  ⟨by decide, (getAirdropStats_cap wOverState 0).2.1 (by decide)⟩

end PayCrypt
